import Mathlib

/-!
# Verification of `scripts/dvp_swar.py`

A shallow embedding of the DvP (Defense-vs-Position) sampler script.
Python values that flow through the boxscore pipeline (JSON strings,
numbers and nulls) are modelled by `Cell`; Python `float` arithmetic is
modelled by exact rationals (every statistic handled by the script is an
integer, for which `float` arithmetic is exact); code that can raise an
exception is modelled in the `Except Unit` monad, where `.error ()`
stands for a raised Python exception and `.ok` for normal return.
-/

namespace DvP

/-- A JSON/Python value occurring in a boxscore row or payload:
a string, a number (modelled as an exact rational), or `None`. -/
inductive Cell where
  | str (v : String)
  | num (v : ℚ)
  | null
deriving DecidableEq

/-- Python truthiness of a cell, as used by the script's `x or default`
idioms: `None`, `''` and `0` are falsy, everything else truthy. -/
def Cell.truthy : Cell → Bool
  | .null => false
  | .str v => v ≠ ""
  | .num v => v ≠ 0

/-- Python list indexing `r[i]`: a negative index counts from the end
(`r[-1]` is the last element); an index out of range raises `IndexError`. -/
def pyGet (r : List Cell) (i : Int) : Except Unit Cell :=
  let j : Int := if i < 0 then i + r.length else i
  if 0 ≤ j then
    match r.get? j.toNat with
    | some c => .ok c
    | none => .error ()
  else .error ()

/-- Value of a plain decimal-digit string (used to model Python's
`int(...)`/`float(...)` on the numeric strings the NBA feed can emit;
other string shapes are modelled as raising, which is what Python does
for the non-numeric strings relevant here). -/
def digitsVal? (s : String) : Option Nat :=
  if s.data ≠ [] ∧ s.data.all Char.isDigit then
    some (s.data.foldl (fun a c => a * 10 + (c.toNat - 48)) 0)
  else none

/-- Python `int(x)`: numbers truncate toward zero, digit strings parse,
`None` and non-numeric strings raise. -/
def pyInt : Cell → Except Unit Int
  | .num v => .ok (v.num.tdiv v.den)
  | .str v =>
    match digitsVal? v with
    | some n => .ok (n : Int)
    | none => .error ()
  | .null => .error ()

/-- Python `float(x)` on a cell: numbers pass through, digit strings
parse, `None` and non-numeric strings raise. -/
def pyFloat : Cell → Except Unit ℚ
  | .num v => .ok v
  | .str v =>
    match digitsVal? v with
    | some n => .ok (n : ℚ)
    | none => .error ()
  | .null => .error ()

/-- The script's `float(x or 0)`: a falsy cell becomes `0`. -/
def floatOr0 (c : Cell) : Except Unit ℚ :=
  if c.truthy then pyFloat c else .ok 0

/-- Rendering of a cell by Python `str(...)`; only the string case is
ever reached through `strOrEmpty` on truthy data in this pipeline. -/
def cellStr : Cell → String
  | .str v => v
  | .num v => toString v
  | .null => "None"

/-- The script's `str(x or '')`: a falsy cell becomes the empty string. -/
def strOrEmpty (c : Cell) : String :=
  if c.truthy then cellStr c else ""

/-- Python `str.lower()` (ASCII scope, which covers every character the
pipeline distinguishes), written on the character list so that it
evaluates by kernel reduction. -/
def pyLower (s : String) : String := String.mk (s.data.map Char.toLower)

/-- Python `str.upper()` (ASCII scope), on the character list. -/
def pyUpper (s : String) : String := String.mk (s.data.map Char.toUpper)

instance instDecEqExcept {ε α : Type} [DecidableEq ε] [DecidableEq α] :
    DecidableEq (Except ε α) := fun x y =>
  match x, y with
  | .ok a, .ok b =>
    if h : a = b then isTrue (by rw [h]) else isFalse (fun hh => h (by cases hh; rfl))
  | .error a, .error b =>
    if h : a = b then isTrue (by rw [h]) else isFalse (fun hh => h (by cases hh; rfl))
  | .ok _, .error _ => isFalse (fun hh => Except.noConfusion hh)
  | .error _, .ok _ => isFalse (fun hh => Except.noConfusion hh)

/-! ## `norm_name` (NameNormalizer)

The Python source is a pipeline of `str.lower` and three `re.sub`
passes.  After the first substitution the string's alphabet is
`[a-z]` plus whitespace, so the word-boundary pattern
`\b(jr|sr|ii|iii|iv)\b` matches exactly the maximal lowercase-letter
runs equal to one of the suffix tokens; the embedding implements each
regex pass as a character-list transformation with that reading. -/

/-- `c` is a lowercase ASCII letter, the regex class `[a-z]`. -/
def isLowerAZ (c : Char) : Bool := 'a' ≤ c && c ≤ 'z'

/-- `c` is in the regex class `\s` (ASCII whitespace as Python sees it
for the data at hand). -/
def pySpace (c : Char) : Bool :=
  c = ' ' || c = '\t' || c = '\n' || c = '\r' || c = '\x0b' || c = '\x0c'

/-- One character of `re.sub(r"[^a-z\s]", ' ', s)`. -/
def subNonAz (c : Char) : Char :=
  if isLowerAZ c || pySpace c then c else ' '

/-- The standalone suffix tokens removed by the second substitution. -/
def suffixTokens : List (List Char) :=
  [['j', 'r'], ['s', 'r'], ['i', 'i'], ['i', 'i', 'i'], ['i', 'v']]

/-- Emit a completed maximal letter run: a suffix token is replaced by
a single space (the `re.sub` replacement string), others are kept. -/
def emitTok (cur : List Char) : List Char :=
  if cur = [] then []
  else if cur ∈ suffixTokens then [' ']
  else cur

/-- `re.sub(r"\b(jr|sr|ii|iii|iv)\b", ' ', s)` over the `[a-z]`/`\s`
alphabet: accumulate each maximal letter run in `cur` and filter it
through `emitTok` at its end. -/
def sub2Aux (cur : List Char) : List Char → List Char
  | [] => emitTok cur
  | c :: cs =>
    if isLowerAZ c then sub2Aux (cur ++ [c]) cs
    else emitTok cur ++ c :: sub2Aux [] cs

/-- `re.sub(r"\s+", ' ', s)`: collapse every maximal whitespace run to
one space; `prevSpace` records whether the current run was opened. -/
def collapseAux (prevSpace : Bool) : List Char → List Char
  | [] => []
  | c :: cs =>
    if pySpace c then
      if prevSpace then collapseAux true cs
      else ' ' :: collapseAux true cs
    else c :: collapseAux false cs

/-- Python `str.strip()`: drop leading and trailing whitespace. -/
def pyStrip (l : List Char) : List Char :=
  (((l.dropWhile pySpace).reverse.dropWhile pySpace).reverse)

/-- `norm_name` from the source.  On an actual string argument the
guard `(s or '')` is the identity (it only converts `None` to `''`,
and `''` is left unchanged), so the embedding starts at `lower()`. -/
def norm_name (s : String) : String :=
  String.mk (pyStrip (collapseAux false (sub2Aux [] ((pyLower s).data.map subNonAz))))

/-! ## `idx` (ColumnResolver) -/

/-- Python `list.index(x)` restricted to its observable outcome: the
first index holding `x`, or `none` (the raised `ValueError`). -/
def pyIndexOf (x : String) : List String → Option Nat
  | [] => none
  | h :: t => if h = x then some 0 else (pyIndexOf x t).map (fun i => i + 1)

/-- Inner loop of `idx`: try each candidate name in order against the
lowered header list (`list.index` raising `ValueError` on a missing
entry is modelled by `pyIndexOf` returning `none`). -/
def idxGo (lower : List String) : List String → Int
  | [] => -1
  | n :: rest =>
    match pyIndexOf (pyLower n) lower with
    | some i => (i : Int)
    | none => idxGo lower rest

/-- `idx(headers, *names)`: case-insensitive index of the first
candidate found in the header list, `-1` if none matches. -/
def idx (headers : List String) (names : List String) : Int :=
  idxGo (headers.map (fun h => pyLower h)) names

/-! ## Static tables and season labels -/

/-- The five positional bucket labels, in source order. -/
def BUCKETS_KEYS : List String := ["PG", "SG", "SF", "PF", "C"]

/-- The static team-abbreviation to team-id table. -/
def ABBR_TO_TEAM_ID : List (String × Int) :=
  [("ATL", 1610612737), ("BOS", 1610612738), ("BKN", 1610612751),
   ("CHA", 1610612766), ("CHI", 1610612741), ("CLE", 1610612739),
   ("DAL", 1610612742), ("DEN", 1610612743), ("DET", 1610612765),
   ("GSW", 1610612744), ("HOU", 1610612745), ("IND", 1610612754),
   ("LAC", 1610612746), ("LAL", 1610612747), ("MEM", 1610612763),
   ("MIA", 1610612748), ("MIL", 1610612749), ("MIN", 1610612750),
   ("NOP", 1610612740), ("NYK", 1610612752), ("OKC", 1610612760),
   ("ORL", 1610612753), ("PHI", 1610612755), ("PHX", 1610612756),
   ("POR", 1610612757), ("SAC", 1610612758), ("SAS", 1610612759),
   ("TOR", 1610612761), ("UTA", 1610612762), ("WAS", 1610612764)]

/-- The reverse table, derived by inversion as in the source. -/
def TEAM_ID_TO_ABBR : List (Int × String) :=
  ABBR_TO_TEAM_ID.map (fun p => (p.2, p.1))

/-- Python `str.zfill(2)` on the nonnegative decimal strings produced
by `str((y + 1) % 100)`. -/
def zfill2 (s : String) : String :=
  if s.length ≥ 2 then s else String.mk (List.replicate (2 - s.length) '0' ++ s.data)

/-- `season_label_from_year`: e.g. `2025 ↦ "2025-26"`.  Lean's `%` on
`Int` is Euclidean remainder, which agrees with Python `%` for the
positive modulus `100`. -/
def season_label_from_year (y : Int) : String :=
  toString y ++ "-" ++ zfill2 (toString ((y + 1) % 100))

/-! ## `fetch_depth_chart_buckets` (RosterBucketResolver)

The HTTP exchange is abstracted to its observable outcome `DCNet`:
a network-level exception, or a response with a status code and a body
(`none` when `r.json()` raises on a malformed body).  The payload shape
mirrors what the code touches: an optional `depthChart` object mapping
bucket labels to entry lists, each entry a bare string, an object with
a `name` member, an object without one, or some other JSON value. -/

/-- One entry of a depth-chart bucket array. -/
inductive PEntry where
  | nameStr (s : String)
  | objWithName (c : Cell)
  | objNoName
  | other
deriving DecidableEq

/-- The payload: `js.get('depthChart')`, absent/null modelled as `none`. -/
structure DCPayload where
  depthChart : Option (List (String × List PEntry))

/-- An HTTP response: status code and parsed JSON body (`none` when
`r.json()` raises). -/
structure DCResp where
  status : Int
  body : Option DCPayload

/-- Outcome of `requests.get`: a response, or a raised network error. -/
inductive DCNet where
  | resp (r : DCResp)
  | err

/-- `p if isinstance(p, str) else (p.get('name') if isinstance(p, dict)
else None)`. -/
def entryName : PEntry → Option Cell
  | .nameStr s => some (.str s)
  | .objWithName c => some c
  | .objNoName => none
  | .other => none

/-- One loop body `if name: mapping[norm_name(name)] = k`.  The dict is
modelled as an association list with newest binding first, so a write
is a `cons` and `List.lookup` returns the most recent binding.  A
truthy non-string name reaches `norm_name`, whose `(s or '').lower()`
raises `AttributeError` on a non-string — modelled as `.error ()`. -/
def addOne (k : String) (m : List (String × String)) (p : PEntry) :
    Except Unit (List (String × String)) :=
  match entryName p with
  | none => .ok m
  | some c =>
    if c.truthy then
      match c with
      | .str s => .ok ((norm_name s, k) :: m)
      | _ => .error ()
    else .ok m

/-- The double loop `for k in BUCKETS_KEYS: for p in (dc.get(k) or []):
...` building the mapping; an exception anywhere aborts the build. -/
def buildMapping (dc : List (String × List PEntry)) :
    Except Unit (List (String × String)) :=
  BUCKETS_KEYS.foldlM
    (fun m k => ((dc.lookup k).getD []).foldlM (fun mm p => addOne k mm p) m) []

/-- `fetch_depth_chart_buckets`: the whole body is wrapped in
`try ... except Exception: return {}`, so every failure — network
error, non-200 status, malformed body, or an exception while building
the mapping — yields the empty mapping, and the function never raises. -/
def fetch_depth_chart_buckets (net : DCNet) : List (String × String) :=
  match net with
  | .err => []
  | .resp r =>
    if r.status ≠ 200 then []
    else
      match r.body with
      | none => []
      | some js =>
        match buildMapping (js.depthChart.getD []) with
        | .ok m => m
        | .error _ => []

/-! ## GameProcessor -/

/-- One result set of a boxscore payload: its `name`, `headers` and
`rowSet` members (an absent/null `name` reads back as `""` through
`str(rset.get('name') or '')`, an absent `headers`/`rowSet` as the
empty list, which the code treats identically to a falsy value). -/
structure ResultSet where
  rname : String
  headers : List String
  rowSet : List (List Cell)
deriving DecidableEq

/-- A fetched boxscore: its `resultSets` member. -/
structure Boxscore where
  resultSets : List ResultSet
deriving DecidableEq

/-- `str(rset.get('name') or '').lower().find('player') >= 0`:
the lowered name contains `"player"` as a substring. -/
def containsPlayer (s : String) : Bool :=
  (pyLower s).data.tails.any (fun t => List.isPrefixOf "player".data t)

/-- Selection of the player result set: the first whose name mentions
`player`, else the first result set, else none. -/
def pickPset (rs : List ResultSet) : Option ResultSet :=
  match rs.find? (fun rset => containsPlayer rset.rname) with
  | some p => some p
  | none => rs.head?

/-- The ten resolved column indices. -/
structure Cols where
  iTeamId : Int
  iTeamAbbr : Int
  iPlayer : Int
  iStartPos : Int
  iPTS : Int
  iREB : Int
  iAST : Int
  iFG3M : Int
  iSTL : Int
  iBLK : Int

/-- The block of `idx` calls resolving every column of interest. -/
def resolveCols (headers : List String) : Cols where
  iTeamId := idx headers ["TEAM_ID"]
  iTeamAbbr := idx headers ["TEAM_ABBREVIATION"]
  iPlayer := idx headers ["PLAYER_NAME"]
  iStartPos := idx headers ["START_POSITION"]
  iPTS := idx headers ["PTS"]
  iREB := idx headers ["REB"]
  iAST := idx headers ["AST"]
  iFG3M := idx headers ["FG3M"]
  iSTL := idx headers ["STL"]
  iBLK := idx headers ["BLK"]

/-- A per-game (or per-season) bucket accumulator, the Python dict
`{k: 0.0 for k in BUCKETS_KEYS}` as an association list in key order. -/
abbrev Buckets : Type := List (String × ℚ)

/-- The zero accumulator. -/
def bucketsInit : Buckets := BUCKETS_KEYS.map (fun k => (k, (0 : ℚ)))

/-- `buckets[key] += val` (the key is always one of the five labels
when this is reached, so the Python dict write never raises). -/
def bupd (b : Buckets) (k : String) (v : ℚ) : Buckets :=
  b.map (fun p => if p.1 = k then (p.1, p.2 + v) else p)

/-- Sum of a bucket accumulator's values. -/
def sumVals (b : Buckets) : ℚ := (b.map Prod.snd).sum

/-- The heuristic single-bucket fallback decision table (source lines
190–197); `tov` is the local variable the code pins to `0.0`. -/
def heuristicBucket (start_pos : String) (ast tov reb blk : ℚ) : String :=
  if start_pos = "G" then
    if 5 ≤ ast ∨ 4 ≤ tov then "PG" else "SG"
  else if start_pos = "F" then
    if 8 ≤ reb ∨ 2 ≤ blk then "PF" else "SF"
  else if start_pos = "C" then "C"
  else if 7 ≤ reb then "PF" else "C"

/-- The heuristic fallback arm of the row loop: read `ast`, `reb`,
`blk` through `float(r[i] or 0)` (the code also pins `tov = 0.0` and
`fg3a = 0.0`; `fg3a` is unused) and add `val` to the decided bucket. -/
def heuristicAdd (cols : Cols) (r : List Cell) (start_pos : String) (val : ℚ)
    (gb : Buckets) : Except Unit Buckets :=
  match pyGet r cols.iAST with
  | .error e => .error e
  | .ok astc =>
    match floatOr0 astc with
    | .error e => .error e
    | .ok ast =>
      let tov : ℚ := 0
      match pyGet r cols.iREB with
      | .error e => .error e
      | .ok rebc =>
        match floatOr0 rebc with
        | .error e => .error e
        | .ok reb =>
          match pyGet r cols.iBLK with
          | .error e => .error e
          | .ok blkc =>
            match floatOr0 blkc with
            | .error e => .error e
            | .ok blk => .ok (bupd gb (heuristicBucket start_pos ast tov reb blk) val)

/-- The `args.metric` dispatch reading the selected stat column of a
row (with the defensive `else` falling back to points). -/
def metricVal (metric : String) (cols : Cols) (r : List Cell) : Except Unit ℚ :=
  if metric = "pts" then (pyGet r cols.iPTS).bind floatOr0
  else if metric = "reb" then (pyGet r cols.iREB).bind floatOr0
  else if metric = "ast" then (pyGet r cols.iAST).bind floatOr0
  else if metric = "fg3m" then (pyGet r cols.iFG3M).bind floatOr0
  else if metric = "stl" then (pyGet r cols.iSTL).bind floatOr0
  else if metric = "blk" then (pyGet r cols.iBLK).bind floatOr0
  else (pyGet r cols.iPTS).bind floatOr0

/-- One iteration of the opponent-row loop (source lines 161–198),
in the source's evaluation order: team-id conversion, name and
starting-position reads, metric read, zero skip, roster lookup, and
either the roster bucket (when the looked-up key is one of the five
labels) or the heuristic fallback. -/
def processRow (metric : String) (dm : List (String × String)) (cols : Cols)
    (opp_id : Int) (gb : Buckets) (r : List Cell) : Except Unit Buckets :=
  match (pyGet r cols.iTeamId).bind pyInt with
  | .error e => .error e
  | .ok tid =>
    if tid ≠ opp_id then .ok gb
    else
      match pyGet r cols.iPlayer with
      | .error e => .error e
      | .ok pc =>
        let player_name := strOrEmpty pc
        match pyGet r cols.iStartPos with
        | .error e => .error e
        | .ok sc =>
          let start_pos := pyUpper (strOrEmpty sc)
          match metricVal metric cols r with
          | .error e => .error e
          | .ok val =>
            if val = 0 then .ok gb
            else
              match dm.lookup (norm_name player_name) with
              | some key =>
                if key ∈ BUCKETS_KEYS then .ok (bupd gb key val)
                else heuristicAdd cols r start_pos val gb
              | none => heuristicAdd cols r start_pos val gb

/-- `next((r for r in rows if int(r[iTeamId]) != team_id), None)`:
the generator converts team ids row by row, so a bad cell raises
before later rows are looked at. -/
def findOpp (team_id : Int) (iTeamId : Int) :
    List (List Cell) → Except Unit (Option (List Cell))
  | [] => .ok none
  | r :: rest =>
    match (pyGet r iTeamId).bind pyInt with
    | .error e => .error e
    | .ok tid => if tid ≠ team_id then .ok (some r) else findOpp team_id iTeamId rest

/-- One iteration of the game loop (source lines 118–198).  The
fetch outcome is `none` when `nba_fetch` raised — the only point the
`try`/`except` protects — and the processing of a fetched boxscore
runs outside any handler, so its exceptions surface as `.error ()`.
`.ok none` means the game was skipped (`continue`), `.ok (some gb)`
that it produced the per-game accumulator `gb`. -/
def processGame (team_id : Int) (metric : String)
    (depthOf : String → List (String × String)) (fr : Option Boxscore) :
    Except Unit (Option Buckets) :=
  match fr with
  | none => .ok none
  | some bs =>
    match pickPset bs.resultSets with
    | none => .ok none
    | some pset =>
      if pset.headers = [] ∨ pset.rowSet = [] then .ok none
      else
        let cols := resolveCols pset.headers
        match findOpp team_id cols.iTeamId pset.rowSet with
        | .error e => .error e
        | .ok none => .ok none
        | .ok (some opp_row) =>
          if opp_row = [] then .ok none
          else
            match (pyGet opp_row cols.iTeamId).bind pyInt with
            | .error e => .error e
            | .ok opp_id =>
              -- `TEAM_ID_TO_ABBR.get(opp_id) or str(opp_row[iTeamAbbr] or '')`:
              -- every value of the static table is a nonempty (truthy)
              -- abbreviation, so a lookup hit short-circuits the `or` and the
              -- row's abbreviation cell is only read (and can only raise) on
              -- a miss.
              let abbrRes : Except Unit String :=
                match TEAM_ID_TO_ABBR.lookup opp_id with
                | some a => .ok a
                | none =>
                  match pyGet opp_row cols.iTeamAbbr with
                  | .error e => .error e
                  | .ok c => .ok (strOrEmpty c)
              match abbrRes with
              | .error e => .error e
              | .ok opp_abbr =>
                if opp_abbr = "" then .ok none
                else
                  let dm := depthOf opp_abbr
                  pset.rowSet.foldlM (fun acc r => processRow metric dm cols opp_id acc r)
                    bucketsInit |>.map some

/-! ## SeasonAggregator -/

/-- `for k in BUCKETS_KEYS: totals[k] += game_buckets[k]`. -/
def addTot (t gb : Buckets) : Buckets :=
  t.map (fun p => (p.1, p.2 + ((gb.lookup p.1).getD 0)))

/-- One iteration of the season loop: a skipped game leaves the
accumulator untouched, a processed one adds its deltas and increments
the processed count. -/
def seasonStep (team_id : Int) (metric : String)
    (depthOf : String → List (String × String)) (acc : Buckets × Nat)
    (fr : Option Boxscore) : Except Unit (Buckets × Nat) :=
  match processGame team_id metric depthOf fr with
  | .error e => .error e
  | .ok none => .ok acc
  | .ok (some gb) => .ok (addTot acc.1 gb, acc.2 + 1)

/-- `max(1, min(args.games, 50))` as the slice length. -/
def clampGames (g : Int) : Nat := (max 1 (min g 50)).toNat

/-- The tuple `compute_for_season` returns. -/
structure SeasonResult where
  label : String
  processed : Nat
  totals : Buckets
  perGame : Buckets
deriving DecidableEq

/-- `compute_for_season(start_year)`.  The season's game list is
abstracted to `games`: the ordered fetch outcomes for the season's
game ids (the slice `[:max(1, min(args.games, 50))]` is applied to the
ids before fetching, hence `take` below).  Exceptions escaping the
loop body outside the fetch `try` propagate as `.error ()`. -/
def compute_for_season (games : List (Option Boxscore))
    (depthOf : String → List (String × String)) (team_id : Int) (metric : String)
    (games_arg : Int) (start_year : Int) : Except Unit SeasonResult :=
  let s_label := season_label_from_year start_year
  let gids := games.take (clampGames games_arg)
  match gids.foldlM (seasonStep team_id metric depthOf) (bucketsInit, 0) with
  | .error e => .error e
  | .ok (totals, processed) =>
    let per_game : Buckets := BUCKETS_KEYS.map (fun k =>
      (k, if processed = 0 then (0 : ℚ) else ((totals.lookup k).getD 0) / (processed : ℚ)))
    .ok ⟨s_label, processed, totals, per_game⟩

/-- The JSON object `main` prints on the success path. -/
structure RunOutput where
  success : Bool
  season : String
  sample_games : Nat
  perGame : Buckets
  totals : Buckets
deriving DecidableEq

/-- The season orchestration of `main` (source lines 207–217): compute
the requested season; if it processed no game, retry once with the
prior year and adopt the retry's label, count, totals and averages
only when the retry processed at least one game. -/
def mainRun (gamesOf : Int → List (Option Boxscore))
    (depthOf : String → List (String × String)) (team_id : Int) (metric : String)
    (games_arg : Int) (season_year : Int) : Except Unit RunOutput :=
  let season_label := season_label_from_year season_year
  match compute_for_season (gamesOf season_year) depthOf team_id metric games_arg season_year with
  | .error e => .error e
  | .ok r1 =>
    if r1.processed = 0 then
      match compute_for_season (gamesOf (season_year - 1)) depthOf team_id metric games_arg
          (season_year - 1) with
      | .error e => .error e
      | .ok r2 =>
        if r2.processed > 0 then .ok ⟨true, r2.label, r2.processed, r2.perGame, r2.totals⟩
        else .ok ⟨true, season_label, r1.processed, r1.perGame, r1.totals⟩
    else .ok ⟨true, season_label, r1.processed, r1.perGame, r1.totals⟩

/-! ## Helper lemmas -/

attribute [local semireducible] Rat.add Rat.mul Rat.inv

theorem heuristicBucket_mem (sp : String) (ast tov reb blk : ℚ) :
    heuristicBucket sp ast tov reb blk ∈ BUCKETS_KEYS := by
  unfold heuristicBucket BUCKETS_KEYS
  split_ifs <;> simp

theorem bupd_keys (gb : Buckets) (k : String) (v : ℚ) :
    (bupd gb k v).map Prod.fst = gb.map Prod.fst := by
  induction gb with
  | nil => rfl
  | cons p t ih =>
    by_cases h : p.1 = k <;> simp [bupd, h] at ih ⊢ <;> exact ih

theorem addTot_keys (t gb : Buckets) : (addTot t gb).map Prod.fst = t.map Prod.fst := by
  induction t with
  | nil => rfl
  | cons p r ih => simp [addTot]

theorem bucketsInit_keys : bucketsInit.map Prod.fst = BUCKETS_KEYS := by decide

theorem count_buckets_key {k : String} (hk : k ∈ BUCKETS_KEYS) :
    BUCKETS_KEYS.count k = 1 := by
  fin_cases hk <;> decide

theorem sumVals_bupd_count (gb : Buckets) (k : String) (v : ℚ) :
    sumVals (bupd gb k v) = sumVals gb + ((gb.map Prod.fst).count k : ℚ) * v := by
  induction gb with
  | nil => simp [sumVals, bupd]
  | cons p t ih =>
    simp only [bupd, sumVals, List.map_cons, List.sum_cons, List.count_cons] at ih ⊢
    by_cases h : p.1 = k
    · have hbeq : (p.1 == k) = true := beq_iff_eq.mpr h
      simp only [if_pos h, hbeq, if_pos]
      push_cast
      linarith [ih]
    · have hbeq : (p.1 == k) = false := beq_eq_false_iff_ne.mpr h
      simp only [if_neg h, hbeq, Bool.false_eq_true, if_false]
      push_cast
      linarith [ih]

theorem sumVals_bupd {gb : Buckets} {k : String} (v : ℚ)
    (hkeys : gb.map Prod.fst = BUCKETS_KEYS) (hk : k ∈ BUCKETS_KEYS) :
    sumVals (bupd gb k v) = sumVals gb + v := by
  rw [sumVals_bupd_count, hkeys, count_buckets_key hk]
  push_cast
  ring

/-- Claim C1: for an opponent boxscore row not resolved by the roster
mapping the heuristic assigns exactly the spec's decision table, the
turnover disjunct being vacuous at the pinned value `tov = 0`: label
`"G"` gives PG iff `ast ≥ 5` (else SG), label `"F"` gives PF iff
`reb ≥ 8` or `blk ≥ 2` (else SF), label `"C"` gives C, any other label
gives PF iff `reb ≥ 7` (else C); all boundaries are inclusive. -/
theorem c1_heuristic_decision_table (ast reb blk : ℚ) (sp : String) :
    heuristicBucket "G" ast 0 reb blk = (if 5 ≤ ast then "PG" else "SG") ∧
    heuristicBucket "F" ast 0 reb blk = (if 8 ≤ reb ∨ 2 ≤ blk then "PF" else "SF") ∧
    heuristicBucket "C" ast 0 reb blk = "C" ∧
    (sp ≠ "G" → sp ≠ "F" → sp ≠ "C" →
      heuristicBucket sp ast 0 reb blk = (if 7 ≤ reb then "PF" else "C")) ∧
    (∀ (metric : String) (dm : List (String × String)) (cols : Cols) (opp_id : Int)
      (gb : Buckets) (r : List Cell) (tid : Int) (pc sc : Cell) (val : ℚ),
      (pyGet r cols.iTeamId).bind pyInt = .ok tid → tid = opp_id →
      pyGet r cols.iPlayer = .ok pc → pyGet r cols.iStartPos = .ok sc →
      metricVal metric cols r = .ok val → val ≠ 0 →
      dm.lookup (norm_name (strOrEmpty pc)) = none →
      processRow metric dm cols opp_id gb r =
        heuristicAdd cols r (pyUpper (strOrEmpty sc)) val gb) ∧
    heuristicBucket "G" 5 0 0 0 = "PG" ∧ heuristicBucket "G" 4 0 0 0 = "SG" ∧
    heuristicBucket "F" 0 0 8 0 = "PF" ∧ heuristicBucket "F" 0 0 7 0 = "SF" := by
  refine ⟨?_, ?_, ?_, ?_, ?_, by decide, by decide, by decide, by decide⟩
  · have h4 : ¬ (4 : ℚ) ≤ 0 := by norm_num
    simp [heuristicBucket, h4]
  · simp [heuristicBucket]
  · simp [heuristicBucket]
  · intro h1 h2 h3
    simp [heuristicBucket, h1, h2, h3]
  · intro metric dm cols opp_id gb r tid pc sc val h1 h2 h3 h4 h5 h6 h7
    unfold processRow
    rw [h1]
    simp only [h2, ne_eq, not_true_eq_false, if_false, h3, h4, h5, if_neg h6, h7]

/-- Witness for C1 at concrete inputs: an unrecognized label with
`reb = 7` lands in PF, and the `ast = 5` boundary lands in PG. -/
theorem c1_witness :
    heuristicBucket "X" 0 0 7 0 = "PF" ∧ heuristicBucket "G" 5 0 0 0 = "PG" := by
  have h := c1_heuristic_decision_table 0 7 0 "X"
  refine ⟨?_, h.2.2.2.2.2.1⟩
  have h4 := h.2.2.2.1 (by decide) (by decide) (by decide)
  simpa using h4

/-! ## Bounds on the processed-game count (C8) -/

theorem seasonStep_processed_le {team : Int} {metric : String}
    {d : String → List (String × String)} {acc acc' : Buckets × Nat}
    {fr : Option Boxscore} (h : seasonStep team metric d acc fr = .ok acc') :
    acc'.2 ≤ acc.2 + 1 := by
  unfold seasonStep at h
  rcases hpg : processGame team metric d fr with e | ov
  · simp [hpg] at h
  · cases ov with
    | none =>
      simp only [hpg, Except.ok.injEq] at h
      rw [← h]
      omega
    | some gb =>
      simp only [hpg, Except.ok.injEq] at h
      rw [← h]

theorem seasonFold_processed_le {team : Int} {metric : String}
    {d : String → List (String × String)} :
    ∀ (l : List (Option Boxscore)) (acc res : Buckets × Nat),
      l.foldlM (seasonStep team metric d) acc = .ok res → res.2 ≤ acc.2 + l.length := by
  intro l
  induction l with
  | nil =>
    intro acc res h
    simp only [List.foldlM_nil] at h
    cases h
    simp
  | cons x xs ih =>
    intro acc res h
    rw [List.foldlM_cons] at h
    rcases hs : seasonStep team metric d acc x with e | acc'
    · rw [hs] at h
      simp [bind, Except.bind] at h
    · rw [hs] at h
      simp only [bind, Except.bind] at h
      have h1 := ih acc' res h
      have h2 := seasonStep_processed_le hs
      simp only [List.length_cons]
      omega

theorem compute_for_season_inv {games : List (Option Boxscore)}
    {d : String → List (String × String)} {team : Int} {metric : String}
    {g y : Int} {r : SeasonResult}
    (h : compute_for_season games d team metric g y = .ok r) :
    ∃ tp : Buckets × Nat,
      (games.take (clampGames g)).foldlM (seasonStep team metric d) (bucketsInit, 0) =
        .ok tp ∧
      r = ⟨season_label_from_year y, tp.2, tp.1,
        BUCKETS_KEYS.map (fun k =>
          (k, if tp.2 = 0 then (0 : ℚ) else ((tp.1.lookup k).getD 0) / (tp.2 : ℚ)))⟩ := by
  simp only [compute_for_season] at h
  rcases hf : (games.take (clampGames g)).foldlM (seasonStep team metric d)
      (bucketsInit, 0) with e | tp
  · rw [hf] at h
    simp at h
  · rcases tp with ⟨tot, p⟩
    rw [hf] at h
    simp only [Except.ok.injEq] at h
    exact ⟨(tot, p), rfl, h.symm⟩

/-- Claim C8: `maxGames` is clamped into `[1, 50]` (0 becomes 1, 500
becomes 50), only the first `clamp(maxGames)` game identifiers of the
season's list are consumed, and at most 50 games are ever processed in
one season attempt. -/
theorem c8_clamp_games (g : Int) :
    1 ≤ clampGames g ∧ clampGames g ≤ 50 ∧ clampGames 0 = 1 ∧ clampGames 500 = 50 ∧
    (∀ games d team metric y, compute_for_season games d team metric g y =
      compute_for_season (games.take (clampGames g)) d team metric g y) ∧
    (∀ games d team metric y r, compute_for_season games d team metric g y = .ok r →
      r.processed ≤ 50) := by
  have hb : 1 ≤ clampGames g ∧ clampGames g ≤ 50 := by
    unfold clampGames
    constructor
    · rcases le_total g 50 with h | h <;> rcases le_total 1 g with h' | h' <;> omega
    · rcases le_total g 50 with h | h <;> rcases le_total 1 g with h' | h' <;> omega
  refine ⟨hb.1, hb.2, by decide, by decide, ?_, ?_⟩
  · intro games d team metric y
    unfold compute_for_season
    rw [List.take_take, min_self]
  · intro games d team metric y r h
    obtain ⟨tp, hf, hr⟩ := compute_for_season_inv h
    have h1 := seasonFold_processed_le (games.take (clampGames g)) (bucketsInit, 0) tp hf
    have h2 : (games.take (clampGames g)).length ≤ clampGames g := by
      simp [List.length_take_le]
    have h3 : r.processed = tp.2 := by rw [hr]
    omega

/-! ## Shape of the season result (C9) -/

theorem seasonStep_keys {team : Int} {metric : String}
    {d : String → List (String × String)} {acc acc' : Buckets × Nat}
    {fr : Option Boxscore} (h : seasonStep team metric d acc fr = .ok acc') :
    acc'.1.map Prod.fst = acc.1.map Prod.fst := by
  unfold seasonStep at h
  rcases hpg : processGame team metric d fr with e | ov
  · simp [hpg] at h
  · cases ov with
    | none =>
      simp only [hpg, Except.ok.injEq] at h
      rw [← h]
    | some gb =>
      simp only [hpg, Except.ok.injEq] at h
      rw [← h]
      exact addTot_keys acc.1 gb

theorem seasonFold_keys {team : Int} {metric : String}
    {d : String → List (String × String)} :
    ∀ (l : List (Option Boxscore)) (acc res : Buckets × Nat),
      l.foldlM (seasonStep team metric d) acc = .ok res →
      res.1.map Prod.fst = acc.1.map Prod.fst := by
  intro l
  induction l with
  | nil =>
    intro acc res h
    simp only [List.foldlM_nil] at h
    cases h
    rfl
  | cons x xs ih =>
    intro acc res h
    rw [List.foldlM_cons] at h
    rcases hs : seasonStep team metric d acc x with e | acc'
    · rw [hs] at h
      simp [bind, Except.bind] at h
    · rw [hs] at h
      simp only [bind, Except.bind] at h
      rw [ih acc' res h, seasonStep_keys hs]

/-- Claim C9: in every season result the totals and per-game mappings
key exactly the five buckets; each per-game average is the bucket total
divided by the processed count when that count is positive, and exactly
zero for every bucket when it is zero — no division error can occur. -/
theorem c9_averages {games : List (Option Boxscore)}
    {d : String → List (String × String)} {team : Int} {metric : String}
    {g y : Int} {r : SeasonResult}
    (h : compute_for_season games d team metric g y = .ok r) :
    r.totals.map Prod.fst = BUCKETS_KEYS ∧
    r.perGame.map Prod.fst = BUCKETS_KEYS ∧
    (r.processed = 0 → r.perGame = BUCKETS_KEYS.map (fun k => (k, (0 : ℚ)))) ∧
    (0 < r.processed →
      r.perGame = BUCKETS_KEYS.map (fun k =>
        (k, ((r.totals.lookup k).getD 0) / (r.processed : ℚ)))) := by
  obtain ⟨tp, hf, hr⟩ := compute_for_season_inv h
  have hkeys : tp.1.map Prod.fst = BUCKETS_KEYS := by
    rw [seasonFold_keys _ _ _ hf]
    exact bucketsInit_keys
  subst hr
  refine ⟨hkeys, ?_, ?_, ?_⟩
  · simp [Function.comp_def]
  · intro hp0
    simp only at hp0
    simp [hp0]
  · intro hp
    have hne : tp.2 ≠ 0 := by
      simp only at hp
      omega
    simp [hne]

/-- Witness for C9 on a one-game season: the per-game mapping equals
the totals divided by the processed count `1`, keyed by the five
buckets. -/
theorem c9_witness :
    ([("PG", (7 : ℚ)), ("SG", 0), ("SF", 0), ("PF", 0), ("C", 12)] : Buckets) =
      BUCKETS_KEYS.map (fun k =>
        (k, ((([("PG", (7 : ℚ)), ("SG", 0), ("SF", 0), ("PF", 0), ("C", 12)] :
          Buckets).lookup k).getD 0) / ((1 : ℕ) : ℚ))) := by
  have h := c9_averages (show compute_for_season
    [some ⟨[⟨"PlayerStats",
      ["TEAM_ID", "TEAM_ABBREVIATION", "PLAYER_NAME", "START_POSITION",
       "PTS", "REB", "AST", "FG3M", "STL", "BLK"],
      [[.num 1610612749, .str "MIL", .str "Own Guy", .str "G", .num 10, .num 2,
        .num 1, .num 0, .num 0, .num 0],
       [.num 1610612738, .str "BOS", .str "Guard A", .str "G", .num 7, .num 2,
        .num 6, .num 1, .num 0, .num 0],
       [.num 1610612738, .str "BOS", .str "Big B", .str "C", .num 12, .num 9,
        .num 1, .num 0, .num 1, .num 2]]⟩]⟩]
    (fun _ => []) 1610612749 "pts" 20 2025 = .ok
      ⟨"2025-26", 1, [("PG", 7), ("SG", 0), ("SF", 0), ("PF", 0), ("C", 12)],
       [("PG", 7), ("SG", 0), ("SF", 0), ("PF", 0), ("C", 12)]⟩ by decide)
  exact h.2.2.2 (by decide)

/-! ## Skipping a game with an unidentifiable opponent (C10) -/

/-- Claim C10: when the first differing-team row's id is absent from
the static table and that row's team-abbreviation cell is falsy, the
whole game is skipped: it contributes nothing and does not increment
the processed count. -/
theorem c10_missing_opponent_abbr (team : Int) (metric : String)
    (depthOf : String → List (String × String)) (bs : Boxscore) (pset : ResultSet)
    (opp_row : List Cell) (opp_id : Int)
    (hp : pickPset bs.resultSets = some pset)
    (hh : pset.headers ≠ []) (hr : pset.rowSet ≠ [])
    (ho : findOpp team (resolveCols pset.headers).iTeamId pset.rowSet = .ok (some opp_row))
    (hne : opp_row ≠ [])
    (hid : (pyGet opp_row (resolveCols pset.headers).iTeamId).bind pyInt = .ok opp_id)
    (htab : TEAM_ID_TO_ABBR.lookup opp_id = none)
    (hc : ∃ c, pyGet opp_row (resolveCols pset.headers).iTeamAbbr = .ok c ∧
      strOrEmpty c = "") :
    processGame team metric depthOf (some bs) = .ok none ∧
    ∀ acc, seasonStep team metric depthOf acc (some bs) = .ok acc := by
  obtain ⟨c, hc1, hc2⟩ := hc
  have hmain : processGame team metric depthOf (some bs) = .ok none := by
    unfold processGame
    simp only [hp, ho, hid, htab, hc1, hc2, hh, hr, hne]
    simp
  refine ⟨hmain, fun acc => ?_⟩
  unfold seasonStep
  simp only [hmain]

/-- Witness for C10: a concrete boxscore whose opponent row has id `7`
(not an NBA team id) and a null abbreviation cell is skipped. -/
theorem c10_witness :
    processGame 5 "pts" (fun _ => [])
      (some ⟨[⟨"PlayerStats", ["TEAM_ID", "TEAM_ABBREVIATION"],
        [[Cell.num 7, Cell.null]]⟩]⟩) = .ok none ∧
    seasonStep 5 "pts" (fun _ => []) (bucketsInit, 0)
      (some ⟨[⟨"PlayerStats", ["TEAM_ID", "TEAM_ABBREVIATION"],
        [[Cell.num 7, Cell.null]]⟩]⟩) = .ok (bucketsInit, 0) := by
  have h := c10_missing_opponent_abbr 5 "pts" (fun _ => [])
    ⟨[⟨"PlayerStats", ["TEAM_ID", "TEAM_ABBREVIATION"], [[Cell.num 7, Cell.null]]⟩]⟩
    ⟨"PlayerStats", ["TEAM_ID", "TEAM_ABBREVIATION"], [[Cell.num 7, Cell.null]]⟩
    [Cell.num 7, Cell.null] 7 (by decide) (by decide) (by decide) (by decide)
    (by decide) (by decide) (by decide) ⟨Cell.null, by decide, by decide⟩
  exact ⟨h.1, h.2 (bucketsInit, 0)⟩

/-! ## Name normalization (C7) -/

theorem getLast?_cons_getD {α : Type} (a : α) (l : List α) :
    (a :: l).getLast? = some (l.getLast?.getD a) := by
  induction l generalizing a with
  | nil => rfl
  | cons b t ih =>
    rw [List.getLast?_cons_cons, ih b]
    rcases ht : t.getLast? with _ | v <;> simp [ih, ht]

theorem emitTok_mem (cur : List Char) (hcur : ∀ c ∈ cur, isLowerAZ c = true) :
    ∀ c ∈ emitTok cur, isLowerAZ c = true ∨ pySpace c = true := by
  intro c hc
  unfold emitTok at hc
  split_ifs at hc with h1 h2
  · cases hc
  · rw [List.mem_singleton.mp hc]
    right
    decide
  · exact Or.inl (hcur c hc)

theorem sub2Aux_mem :
    ∀ (l cur : List Char), (∀ c ∈ cur, isLowerAZ c = true) →
      (∀ c ∈ l, isLowerAZ c = true ∨ pySpace c = true) →
      ∀ c ∈ sub2Aux cur l, isLowerAZ c = true ∨ pySpace c = true := by
  intro l
  induction l with
  | nil =>
    intro cur hcur _ c hc
    simp only [sub2Aux] at hc
    exact emitTok_mem cur hcur c hc
  | cons a t ih =>
    intro cur hcur hl c hc
    simp only [sub2Aux] at hc
    by_cases ha : isLowerAZ a = true
    · rw [if_pos ha] at hc
      refine ih (cur ++ [a]) ?_ (fun x hx => hl x (List.mem_cons_of_mem a hx)) c hc
      intro x hx
      rcases List.mem_append.mp hx with hx | hx
      · exact hcur x hx
      · rw [List.mem_singleton.mp hx]
        exact ha
    · rw [if_neg ha] at hc
      rcases List.mem_append.mp hc with hc | hc
      · exact emitTok_mem cur hcur c hc
      · rcases List.mem_cons.mp hc with hc | hc
        · subst hc
          exact hl c (List.mem_cons_self c t)
        · exact ih [] (fun x hx => absurd hx (List.not_mem_nil x))
            (fun x hx => hl x (List.mem_cons_of_mem a hx)) c hc

theorem collapseAux_mem :
    ∀ (l : List Char) (prev : Bool),
      (∀ c ∈ l, isLowerAZ c = true ∨ pySpace c = true) →
      ∀ c ∈ collapseAux prev l, isLowerAZ c = true ∨ c = ' ' := by
  intro l
  induction l with
  | nil => intro prev _ c hc; cases hc
  | cons a t ih =>
    intro prev hl c hc
    by_cases ha : pySpace a = true
    · cases prev with
      | true =>
        rw [show collapseAux true (a :: t) = collapseAux true t from by
          simp [collapseAux, ha]] at hc
        exact ih true (fun x hx => hl x (List.mem_cons_of_mem a hx)) c hc
      | false =>
        rw [show collapseAux false (a :: t) = ' ' :: collapseAux true t from by
          simp [collapseAux, ha]] at hc
        rcases List.mem_cons.mp hc with hc | hc
        · exact Or.inr hc
        · exact ih true (fun x hx => hl x (List.mem_cons_of_mem a hx)) c hc
    · rw [show collapseAux prev (a :: t) = a :: collapseAux false t from by
        simp [collapseAux, ha]] at hc
      rcases List.mem_cons.mp hc with hc | hc
      · subst hc
        rcases hl c (List.mem_cons_self c t) with h | h
        · exact Or.inl h
        · exact absurd h ha
      · exact ih false (fun x hx => hl x (List.mem_cons_of_mem a hx)) c hc

theorem pyStrip_subset {l : List Char} : ∀ c ∈ pyStrip l, c ∈ l := by
  intro c hc
  unfold pyStrip at hc
  rw [List.mem_reverse] at hc
  have h1 := (List.dropWhile_sublist (l := (l.dropWhile pySpace).reverse)
    (p := pySpace)).subset hc
  rw [List.mem_reverse] at h1
  exact (List.dropWhile_sublist (l := l) (p := pySpace)).subset h1

theorem head?_dropWhile_false {p : Char → Bool} :
    ∀ (l : List Char) (c : Char), (l.dropWhile p).head? = some c → p c = false := by
  intro l
  induction l with
  | nil => intro c h; cases h
  | cons a t ih =>
    intro c h
    by_cases ha : p a = true
    · rw [List.dropWhile_cons_of_pos ha] at h
      exact ih c h
    · rw [List.dropWhile_cons_of_neg ha] at h
      simp only [List.head?_cons, Option.some.injEq] at h
      rw [← h]
      exact Bool.not_eq_true _ |>.mp ha

theorem getLast?_dropWhile_ne {p : Char → Bool} :
    ∀ l : List Char, l.dropWhile p ≠ [] → (l.dropWhile p).getLast? = l.getLast? := by
  intro l
  induction l with
  | nil => intro h; exact absurd rfl h
  | cons a t ih =>
    intro h
    by_cases ha : p a = true
    · rw [List.dropWhile_cons_of_pos ha] at h ⊢
      have ht : t ≠ [] := by
        intro he
        rw [he] at h
        exact h rfl
      rw [ih h, getLast?_cons_getD]
      rcases hlt : t.getLast? with _ | v
      · rcases t with _ | ⟨b, t'⟩
        · exact absurd rfl ht
        · rw [getLast?_cons_getD] at hlt
          cases hlt
      · simp
    · rw [List.dropWhile_cons_of_neg ha] at h ⊢

theorem chain'_dropWhile {R : Char → Char → Prop} {p : Char → Bool} :
    ∀ l : List Char, List.Chain' R l → List.Chain' R (l.dropWhile p) := by
  intro l
  induction l with
  | nil => intro h; exact h
  | cons a t ih =>
    intro h
    by_cases ha : p a = true
    · rw [List.dropWhile_cons_of_pos ha]
      exact ih (List.chain'_cons'.mp h).2
    · rw [List.dropWhile_cons_of_neg ha]
      exact h

theorem collapseAux_chain :
    ∀ (l : List Char) (prev : Bool),
      List.Chain' (fun a b => ¬(a = ' ' ∧ b = ' ')) (collapseAux prev l) ∧
      (prev = true → (collapseAux prev l).head? ≠ some ' ') := by
  intro l
  induction l with
  | nil => intro prev; exact ⟨List.chain'_nil, fun _ h => by cases h⟩
  | cons a t ih =>
    intro prev
    by_cases ha : pySpace a = true
    · cases prev with
      | true =>
        rw [show collapseAux true (a :: t) = collapseAux true t from by
          simp [collapseAux, ha]]
        exact ih true
      | false =>
        rw [show collapseAux false (a :: t) = ' ' :: collapseAux true t from by
          simp [collapseAux, ha]]
        constructor
        · rw [List.chain'_cons']
          refine ⟨?_, (ih true).1⟩
          intro b hb hab
          apply (ih true).2 rfl
          rw [Option.mem_def] at hb
          rw [← hab.2]
          exact hb
        · intro h
          cases h
    · rw [show collapseAux prev (a :: t) = a :: collapseAux false t from by
        simp [collapseAux, ha]]
      have hane : a ≠ ' ' := by
        intro he
        rw [he] at ha
        exact ha (by decide)
      constructor
      · rw [List.chain'_cons']
        refine ⟨?_, (ih false).1⟩
        intro b _ hab
        exact hane hab.1
      · intro _ h
        simp only [List.head?_cons, Option.some.injEq] at h
        exact hane h

/-- Claim C7: `norm_name` is a pure total function: the empty (or,
through `s or ''`, null) input yields the empty string; the documented
example pairs normalize equally; every output character is a lowercase
letter or a single interior space — the output never starts or ends
with whitespace and never contains two adjacent spaces — and the
standalone suffix tokens are removed. -/
theorem c7_norm_name :
    norm_name "" = "" ∧
    norm_name "LeBron James Jr." = norm_name "lebron james" ∧
    norm_name "LeBron James Jr." = "lebron james" ∧
    norm_name "John Smith III" = "john smith" ∧
    norm_name "  A.J.  Green  " = "a j green" ∧
    (∀ s : String, ∀ c ∈ (norm_name s).data, isLowerAZ c = true ∨ c = ' ') ∧
    (∀ (s : String) (c : Char), (norm_name s).data.head? = some c → pySpace c = false) ∧
    (∀ (s : String) (c : Char), (norm_name s).data.getLast? = some c → pySpace c = false) ∧
    (∀ s : String, List.Chain' (fun a b => ¬(a = ' ' ∧ b = ' ')) (norm_name s).data) := by
  refine ⟨by decide, by decide, by decide, by decide, by decide, ?_, ?_, ?_, ?_⟩
  · intro s c hc
    have h1 := pyStrip_subset c hc
    refine collapseAux_mem _ false ?_ c h1
    refine sub2Aux_mem _ [] (by simp) ?_
    intro x hx
    rw [List.mem_map] at hx
    obtain ⟨y, _, hy⟩ := hx
    rw [← hy]
    unfold subNonAz
    split_ifs with h
    · rcases Bool.or_eq_true_iff.mp h with h | h
      · exact Or.inl h
      · exact Or.inr h
    · right
      decide
  · intro s c hc
    unfold norm_name pyStrip at hc
    rw [List.head?_reverse] at hc
    have hne : ((collapseAux false (sub2Aux []
        ((pyLower s).data.map subNonAz))).dropWhile pySpace).reverse.dropWhile pySpace ≠ [] := by
      intro he
      rw [he] at hc
      cases hc
    rw [getLast?_dropWhile_ne _ hne, List.getLast?_reverse] at hc
    exact head?_dropWhile_false _ c hc
  · intro s c hc
    unfold norm_name pyStrip at hc
    rw [List.getLast?_reverse] at hc
    exact head?_dropWhile_false _ c hc
  · intro s
    unfold norm_name pyStrip
    have h0 := (collapseAux_chain (sub2Aux [] ((pyLower s).data.map subNonAz)) false).1
    have h1 := chain'_dropWhile (p := pySpace) _ h0
    have h2 : List.Chain' (fun a b => ¬(a = ' ' ∧ b = ' '))
        ((collapseAux false (sub2Aux []
          ((pyLower s).data.map subNonAz))).dropWhile pySpace).reverse := by
      rw [List.chain'_reverse]
      exact h1.imp (fun a b h hab => h ⟨hab.2, hab.1⟩)
    have h3 := chain'_dropWhile (p := pySpace) _ h2
    rw [List.chain'_reverse]
    exact h3.imp (fun a b h hab => h ⟨hab.2, hab.1⟩)

/-- Witness for C7: `norm_name "LeBron"` contains the letter `l`,
which is a lowercase letter, and `norm_name " a b "` starts with `a`,
which is not whitespace. -/
theorem c7_witness :
    (isLowerAZ 'l' = true ∨ 'l' = ' ') ∧ pySpace 'a' = false := by
  have h := c7_norm_name
  exact ⟨h.2.2.2.2.2.1 "LeBron" 'l' (by decide),
    h.2.2.2.2.2.2.1 " a b " 'a' (by decide)⟩

/-! ## Roster mapping construction (C6) -/

/-- The (normalized name, bucket) writes performed for one entry, in
program order: a truthy string name writes its normalized form under
the current bucket label; a missing or falsy name writes nothing.  (A
truthy non-string name raises instead and aborts the whole build, see
`addOne`.) -/
def entryWrites (k : String) (p : PEntry) : List (String × String) :=
  match entryName p with
  | none => []
  | some c =>
    if c.truthy then
      match c with
      | .str s => [(norm_name s, k)]
      | _ => []
    else []

/-- All dictionary writes of the double loop, in program order. -/
def allWrites (dc : List (String × List PEntry)) : List (String × String) :=
  (BUCKETS_KEYS.map (fun k => (((dc.lookup k).getD []).map (entryWrites k)).flatten)).flatten

/-- The value of the last write for a key — the spec's "last write
wins" reading of a sequence of dictionary writes. -/
def lastVal (l : List (String × String)) (n : String) : Option String :=
  ((l.filter (fun q => q.1 == n)).map Prod.snd).getLast?

theorem lookup_append_or (l1 l2 : List (String × String)) (n : String) :
    (l1 ++ l2).lookup n = ((l1.lookup n).map some).getD (l2.lookup n) := by
  induction l1 with
  | nil => simp
  | cons p t ih =>
    rcases hb : (n == p.1) with _ | _ <;>
      simp [List.lookup, hb, ih]

theorem lookup_reverse_lastVal (l : List (String × String)) (n : String) :
    l.reverse.lookup n = lastVal l n := by
  induction l with
  | nil => rfl
  | cons p t ih =>
    rw [List.reverse_cons, lookup_append_or, ih]
    rcases hb : (p.1 == n) with _ | _
    · have hbn : (n == p.1) = false := by
        simp only [beq_eq_false_iff_ne] at hb ⊢
        exact fun hh => hb hh.symm
      rw [show List.lookup n [p] = none from by simp [List.lookup, hbn]]
      rw [show lastVal (p :: t) n = lastVal t n from by
        simp [lastVal, List.filter_cons, hb]]
      rcases lastVal t n <;> simp
    · have hbn : (n == p.1) = true := by
        simp only [beq_iff_eq] at hb ⊢
        exact hb.symm
      rw [show List.lookup n [p] = some p.2 from by simp [List.lookup, hbn]]
      simp only [lastVal, List.filter_cons, hb, if_pos, List.map_cons]
      rw [getLast?_cons_getD]
      rcases hM : ((t.filter (fun q => q.1 == n)).map Prod.snd).getLast? with _ | v <;>
        simp [hM]

theorem foldl_addOne_ok (k : String) :
    ∀ (l : List PEntry) (m0 m' : List (String × String)),
      l.foldlM (fun mm p => addOne k mm p) m0 = .ok m' →
      m' = ((l.map (entryWrites k)).flatten).reverse ++ m0 := by
  intro l
  induction l with
  | nil =>
    intro m0 m' h
    simp only [List.foldlM_nil] at h
    cases h
    simp
  | cons p t ih =>
    intro m0 m' h
    rw [List.foldlM_cons] at h
    rcases ha : addOne k m0 p with e | m1
    · rw [ha] at h
      simp [bind, Except.bind] at h
    · rw [ha] at h
      simp only [bind, Except.bind] at h
      have hm1 : m1 = (entryWrites k p).reverse ++ m0 := by
        unfold addOne at ha
        unfold entryWrites
        rcases hen : entryName p with _ | c
        · rw [hen] at ha
          simp only [Except.ok.injEq] at ha
          simp [← ha]
        · rw [hen] at ha
          by_cases htr : c.truthy
          · cases c with
            | str s =>
              simp only [if_pos htr, Except.ok.injEq] at ha
              simp [htr, ← ha]
            | num v => simp [if_pos htr] at ha
            | null => simp [if_pos htr] at ha
          · simp only [if_neg htr, Except.ok.injEq] at ha
            simp [htr, ← ha]
      rw [ih m1 m' h, hm1]
      simp

theorem buildMapping_ok_writes (dc : List (String × List PEntry)) :
    ∀ (keys : List String) (m0 m' : List (String × String)),
      keys.foldlM (fun m k => ((dc.lookup k).getD []).foldlM
        (fun mm p => addOne k mm p) m) m0 = .ok m' →
      m' = ((keys.map (fun k =>
        (((dc.lookup k).getD []).map (entryWrites k)).flatten)).flatten).reverse ++ m0 := by
  intro keys
  induction keys with
  | nil =>
    intro m0 m' h
    simp only [List.foldlM_nil] at h
    cases h
    simp
  | cons k rest ih =>
    intro m0 m' h
    rw [List.foldlM_cons] at h
    rcases hf : ((dc.lookup k).getD []).foldlM (fun mm p => addOne k mm p) m0 with e | m1
    · rw [hf] at h
      simp [bind, Except.bind] at h
    · rw [hf] at h
      simp only [bind, Except.bind] at h
      rw [ih m1 m' h, foldl_addOne_ok k _ m0 m1 hf]
      simp

theorem lookup_mem_pair :
    ∀ (l : List (String × String)) (n b : String), l.lookup n = some b → (n, b) ∈ l := by
  intro l
  induction l with
  | nil => intro n b h; cases h
  | cons p t ih =>
    intro n b h
    rcases hb : (n == p.1) with _ | _
    · simp only [List.lookup, hb] at h
      exact List.mem_cons_of_mem p (ih n b h)
    · simp only [List.lookup, hb, Option.some.injEq] at h
      have hn : n = p.1 := beq_iff_eq.mp hb
      rw [hn, ← h]
      exact List.mem_cons_self p t

theorem allWrites_snd_mem (dc : List (String × List PEntry)) :
    ∀ q ∈ allWrites dc, q.2 ∈ BUCKETS_KEYS := by
  intro q hq
  unfold allWrites at hq
  rw [List.mem_flatten] at hq
  obtain ⟨inner, hinner, hqin⟩ := hq
  rw [List.mem_map] at hinner
  obtain ⟨k, hk, hkeq⟩ := hinner
  rw [← hkeq, List.mem_flatten] at hqin
  obtain ⟨w, hw, hqw⟩ := hqin
  rw [List.mem_map] at hw
  obtain ⟨p, _, hpw⟩ := hw
  rw [← hpw] at hqw
  unfold entryWrites at hqw
  rcases hen : entryName p with _ | c
  · rw [hen] at hqw
    cases hqw
  · rw [hen] at hqw
    by_cases htr : c.truthy
    · cases c with
      | str s =>
        simp only [if_pos htr, List.mem_singleton] at hqw
        rw [hqw]
        exact hk
      | num v => simp [if_pos htr] at hqw
      | null => simp [if_pos htr] at hqw
    · simp [if_neg htr] at hqw

/-- Claim C6: `fetch_depth_chart_buckets` never raises — every failure
(network error, non-200 status, body that fails to parse, malformed
payload aborting the build) yields the empty mapping; on success it
maps normalized names to bucket labels among the five, and a name
written under several bucket labels resolves to the *last* write in
the fixed PG, SG, SF, PF, C order. -/
theorem c6_roster_resolver :
    (fetch_depth_chart_buckets .err = []) ∧
    (∀ resp : DCResp, resp.status ≠ 200 → fetch_depth_chart_buckets (.resp resp) = []) ∧
    (∀ st : Int, fetch_depth_chart_buckets (.resp ⟨st, none⟩) = []) ∧
    (∀ js : DCPayload, buildMapping (js.depthChart.getD []) = .error () →
      fetch_depth_chart_buckets (.resp ⟨200, some js⟩) = []) ∧
    (∀ (js : DCPayload) (m : List (String × String)),
      buildMapping (js.depthChart.getD []) = .ok m →
      fetch_depth_chart_buckets (.resp ⟨200, some js⟩) = m ∧
      ∀ n, m.lookup n = lastVal (allWrites (js.depthChart.getD [])) n) ∧
    (∀ (net : DCNet) (n b : String),
      (fetch_depth_chart_buckets net).lookup n = some b → b ∈ BUCKETS_KEYS) := by
  have hok : ∀ (js : DCPayload) (m : List (String × String)),
      buildMapping (js.depthChart.getD []) = .ok m →
      fetch_depth_chart_buckets (.resp ⟨200, some js⟩) = m ∧
      ∀ n, m.lookup n = lastVal (allWrites (js.depthChart.getD [])) n := by
    intro js m hbm
    have hm : m = (allWrites (js.depthChart.getD [])).reverse := by
      have := buildMapping_ok_writes (js.depthChart.getD []) BUCKETS_KEYS [] m hbm
      rw [this]
      simp [allWrites]
    constructor
    · unfold fetch_depth_chart_buckets
      simp [hbm]
    · intro n
      rw [hm, lookup_reverse_lastVal]
  refine ⟨rfl, ?_, ?_, ?_, hok, ?_⟩
  · intro resp hr
    rcases resp with ⟨st, body⟩
    unfold fetch_depth_chart_buckets
    simp only at hr
    simp [hr]
  · intro st
    by_cases hst : st = 200 <;> unfold fetch_depth_chart_buckets <;> simp [hst]
  · intro js hbm
    unfold fetch_depth_chart_buckets
    simp [hbm]
  · intro net n b h
    rcases net with resp | _
    · rcases resp with ⟨st, body⟩
      by_cases hst : st = 200
      · subst hst
        rcases body with _ | js
        · simp only [fetch_depth_chart_buckets] at h
          simp at h
        · rcases hbm : buildMapping (js.depthChart.getD []) with e | m
          · simp [fetch_depth_chart_buckets, hbm] at h
          · have hfetch := (hok js m hbm).1
            rw [hfetch] at h
            have hm : m = (allWrites (js.depthChart.getD [])).reverse := by
              have := buildMapping_ok_writes (js.depthChart.getD []) BUCKETS_KEYS [] m hbm
              rw [this]
              simp [allWrites]
            rw [hm] at h
            have hmem := lookup_mem_pair _ n b h
            rw [List.mem_reverse] at hmem
            exact allWrites_snd_mem _ _ hmem
      · unfold fetch_depth_chart_buckets at h
        simp [hst] at h
    · simp only [fetch_depth_chart_buckets] at h
      simp at h

/-- Witness for C6: a payload listing the same normalized name under
PG and then C resolves that name to C, the last write. -/
theorem c6_witness :
    (fetch_depth_chart_buckets (.resp ⟨200, some
      ⟨some [("PG", [PEntry.nameStr "John Doe"]),
             ("C", [PEntry.nameStr "john doe!"])]⟩⟩)).lookup "john doe" =
      some "C" := by
  have h := (c6_roster_resolver).2.2.2.2.1
    ⟨some [("PG", [PEntry.nameStr "John Doe"]), ("C", [PEntry.nameStr "john doe!"])]⟩
    [("john doe", "C"), ("john doe", "PG")] (by decide)
  rw [h.1]
  decide

/-! ## Conservation of the per-game delta (C2) -/

/-- The claim's description of one row's contribution to a game's
delta: the selected metric's value for a row belonging to the opponent
team whose value is nonzero, and `0` otherwise (non-opponent rows,
zero-valued rows). -/
def rowContrib (metric : String) (cols : Cols) (opp_id : Int) (r : List Cell) : ℚ :=
  match (pyGet r cols.iTeamId).bind pyInt with
  | .error _ => 0
  | .ok tid =>
    if tid ≠ opp_id then 0
    else
      match metricVal metric cols r with
      | .error _ => 0
      | .ok v => if v = 0 then 0 else v

theorem heuristicAdd_sum {cols : Cols} {r : List Cell} {sp : String} {val : ℚ}
    {gb gb' : Buckets} (hkeys : gb.map Prod.fst = BUCKETS_KEYS)
    (h : heuristicAdd cols r sp val gb = .ok gb') :
    sumVals gb' = sumVals gb + val ∧ gb'.map Prod.fst = BUCKETS_KEYS := by
  unfold heuristicAdd at h
  rcases h1 : pyGet r cols.iAST with e | astc
  · simp [h1] at h
  simp only [h1] at h
  rcases h2 : floatOr0 astc with e | ast
  · simp [h2] at h
  simp only [h2] at h
  rcases h3 : pyGet r cols.iREB with e | rebc
  · simp [h3] at h
  simp only [h3] at h
  rcases h4 : floatOr0 rebc with e | reb
  · simp [h4] at h
  simp only [h4] at h
  rcases h5 : pyGet r cols.iBLK with e | blkc
  · simp [h5] at h
  simp only [h5] at h
  rcases h6 : floatOr0 blkc with e | blk
  · simp [h6] at h
  simp only [h6, Except.ok.injEq] at h
  rw [← h]
  exact ⟨sumVals_bupd val hkeys (heuristicBucket_mem sp ast 0 reb blk),
    by rw [bupd_keys]; exact hkeys⟩

theorem processRow_sum {metric : String} {dm : List (String × String)} {cols : Cols}
    {opp_id : Int} {gb gb' : Buckets} {r : List Cell}
    (hkeys : gb.map Prod.fst = BUCKETS_KEYS)
    (h : processRow metric dm cols opp_id gb r = .ok gb') :
    sumVals gb' = sumVals gb + rowContrib metric cols opp_id r ∧
    gb'.map Prod.fst = BUCKETS_KEYS := by
  unfold processRow at h
  unfold rowContrib
  rcases h1 : (pyGet r cols.iTeamId).bind pyInt with e | tid
  · simp [h1] at h
  simp only [h1] at h ⊢
  by_cases ht : tid ≠ opp_id
  · simp only [if_pos ht] at h ⊢
    simp only [Except.ok.injEq] at h
    rw [← h]
    exact ⟨by ring, hkeys⟩
  · simp only [if_neg ht] at h ⊢
    rcases h2 : pyGet r cols.iPlayer with e | pc
    · simp [h2] at h
    simp only [h2] at h
    rcases h3 : pyGet r cols.iStartPos with e | sc
    · simp [h3] at h
    simp only [h3] at h
    rcases h4 : metricVal metric cols r with e | val
    · simp [h4] at h
    simp only [h4] at h ⊢
    by_cases hv : val = 0
    · simp only [if_pos hv] at h ⊢
      simp only [Except.ok.injEq] at h
      rw [← h]
      exact ⟨by ring, hkeys⟩
    · simp only [if_neg hv] at h ⊢
      rcases h5 : dm.lookup (norm_name (strOrEmpty pc)) with _ | key
      · simp only [h5] at h
        exact heuristicAdd_sum hkeys h
      · simp only [h5] at h
        by_cases hk : key ∈ BUCKETS_KEYS
        · simp only [if_pos hk, Except.ok.injEq] at h
          rw [← h]
          exact ⟨sumVals_bupd val hkeys hk, by rw [bupd_keys]; exact hkeys⟩
        · simp only [if_neg hk] at h
          exact heuristicAdd_sum hkeys h

theorem processRowFold_sum {metric : String} {dm : List (String × String)}
    {cols : Cols} {opp_id : Int} :
    ∀ (rows : List (List Cell)) (gb gb' : Buckets),
      gb.map Prod.fst = BUCKETS_KEYS →
      rows.foldlM (fun acc r => processRow metric dm cols opp_id acc r) gb = .ok gb' →
      sumVals gb' = sumVals gb + (rows.map (rowContrib metric cols opp_id)).sum ∧
      gb'.map Prod.fst = BUCKETS_KEYS := by
  intro rows
  induction rows with
  | nil =>
    intro gb gb' hkeys h
    simp only [List.foldlM_nil] at h
    cases h
    exact ⟨by simp, hkeys⟩
  | cons x xs ih =>
    intro gb gb' hkeys h
    rw [List.foldlM_cons] at h
    rcases hs : processRow metric dm cols opp_id gb x with e | gb1
    · rw [hs] at h
      simp [bind, Except.bind] at h
    · rw [hs] at h
      simp only [bind, Except.bind] at h
      obtain ⟨hsum1, hkeys1⟩ := processRow_sum hkeys hs
      obtain ⟨hsum2, hkeys2⟩ := ih gb1 gb' hkeys1 h
      refine ⟨?_, hkeys2⟩
      rw [hsum2, hsum1]
      simp only [List.map_cons, List.sum_cons]
      ring

theorem exceptMap_some_ok {α : Type} {x : Except Unit α} {a : α}
    (h : x.map some = .ok (some a)) : x = .ok a := by
  rcases hx : x with e | b
  · rw [hx] at h
    simp [Except.map] at h
  · rw [hx] at h
    simp only [Except.map, Except.ok.injEq, Option.some.injEq] at h
    rw [h]

theorem processGame_delta_inv {team : Int} {metric : String}
    {depthOf : String → List (String × String)} {bs : Boxscore} {gb : Buckets}
    (h : processGame team metric depthOf (some bs) = .ok (some gb)) :
    ∃ (pset : ResultSet) (opp_id : Int) (dm : List (String × String)),
      pickPset bs.resultSets = some pset ∧
      pset.rowSet.foldlM (fun acc r =>
        processRow metric dm (resolveCols pset.headers) opp_id acc r)
        bucketsInit = .ok gb := by
  unfold processGame at h
  rcases hp : pickPset bs.resultSets with _ | pset
  · simp [hp] at h
  simp only [hp] at h
  by_cases hhe : pset.headers = [] ∨ pset.rowSet = []
  · simp [if_pos hhe] at h
  simp only [if_neg hhe] at h
  rcases hfo : findOpp team (resolveCols pset.headers).iTeamId pset.rowSet with e | orow
  · simp [hfo] at h
  simp only [hfo] at h
  rcases orow with _ | opp_row
  · simp at h
  by_cases hor : opp_row = []
  · simp [hor] at h
  simp only [if_neg hor] at h
  rcases hoid : (pyGet opp_row (resolveCols pset.headers).iTeamId).bind pyInt with e | opp_id
  · simp [hoid] at h
  simp only [hoid] at h
  rcases htab : TEAM_ID_TO_ABBR.lookup opp_id with _ | a
  · simp only [htab] at h
    rcases habbr : pyGet opp_row (resolveCols pset.headers).iTeamAbbr with e | c
    · simp [habbr] at h
    simp only [habbr] at h
    by_cases he : strOrEmpty c = ""
    · simp [he] at h
    simp only [if_neg he] at h
    exact ⟨pset, opp_id, depthOf (strOrEmpty c), rfl, exceptMap_some_ok h⟩
  · simp only [htab] at h
    by_cases he : a = ""
    · simp [he] at h
    simp only [if_neg he] at h
    exact ⟨pset, opp_id, depthOf a, rfl, exceptMap_some_ok h⟩

/-- Claim C2: for every processed game, the sum over the five buckets
of the game's per-bucket deltas equals the sum of the selected metric's
values over all rows of the opponent team with nonzero value — each
such row lands in exactly one bucket (roster bucket on a lookup hit,
heuristic bucket otherwise), none is counted twice, and only
zero-valued rows are dropped; the second part lifts this from the
opponent-row loop to any game `processGame` accepts. -/
theorem c2_game_delta_sum :
    (∀ (metric : String) (dm : List (String × String)) (cols : Cols) (opp_id : Int)
      (rows : List (List Cell)) (gb : Buckets),
      rows.foldlM (fun acc r => processRow metric dm cols opp_id acc r)
        bucketsInit = .ok gb →
      sumVals gb = (rows.map (rowContrib metric cols opp_id)).sum) ∧
    (∀ (team : Int) (metric : String) (depthOf : String → List (String × String))
      (bs : Boxscore) (gb : Buckets),
      processGame team metric depthOf (some bs) = .ok (some gb) →
      ∃ (pset : ResultSet) (opp_id : Int),
        pickPset bs.resultSets = some pset ∧
        sumVals gb = (pset.rowSet.map
          (rowContrib metric (resolveCols pset.headers) opp_id)).sum) := by
  have hfold : ∀ (metric : String) (dm : List (String × String)) (cols : Cols)
      (opp_id : Int) (rows : List (List Cell)) (gb : Buckets),
      rows.foldlM (fun acc r => processRow metric dm cols opp_id acc r)
        bucketsInit = .ok gb →
      sumVals gb = (rows.map (rowContrib metric cols opp_id)).sum := by
    intro metric dm cols opp_id rows gb h
    obtain ⟨hsum, _⟩ := processRowFold_sum rows bucketsInit gb bucketsInit_keys h
    rw [hsum]
    have h0 : sumVals bucketsInit = 0 := by decide
    rw [h0]
    ring
  refine ⟨hfold, ?_⟩
  intro team metric depthOf bs gb h
  obtain ⟨pset, opp_id, dm, hp, hf⟩ := processGame_delta_inv h
  exact ⟨pset, opp_id, hp,
    hfold metric dm (resolveCols pset.headers) opp_id pset.rowSet gb hf⟩

/-- Witness for C2 on a concrete game: one own-team row, two opponent
rows worth 7 and 12 points, and one zero-valued opponent row; the
bucket deltas sum to 19, the sum of the nonzero opponent values. -/
theorem c2_witness :
    sumVals [("PG", 7), ("SG", 0), ("SF", 0), ("PF", 0), ("C", 12)] =
      (([[Cell.num 1610612749, .str "MIL", .str "Own Guy", .str "G", .num 10,
          .num 2, .num 1, .num 0, .num 0, .num 0],
         [Cell.num 1610612738, .str "BOS", .str "Guard A", .str "G", .num 7,
          .num 2, .num 6, .num 1, .num 0, .num 0],
         [Cell.num 1610612738, .str "BOS", .str "Big B", .str "C", .num 12,
          .num 9, .num 1, .num 0, .num 1, .num 2],
         [Cell.num 1610612738, .str "BOS", .str "Zero C", .str "F", .num 0,
          .num 3, .num 0, .num 0, .num 0, .num 0]] : List (List Cell)).map
        (rowContrib "pts" (resolveCols ["TEAM_ID", "TEAM_ABBREVIATION",
          "PLAYER_NAME", "START_POSITION", "PTS", "REB", "AST", "FG3M",
          "STL", "BLK"]) 1610612738)).sum :=
  c2_game_delta_sum.1 "pts" [] (resolveCols ["TEAM_ID", "TEAM_ABBREVIATION",
    "PLAYER_NAME", "START_POSITION", "PTS", "REB", "AST", "FG3M", "STL", "BLK"])
    1610612738 _ _ (by decide)

/-! ## Column resolution and missing columns (C4) -/

theorem pyIndexOf_eq_none_iff (x : String) (l : List String) :
    pyIndexOf x l = none ↔ x ∉ l := by
  induction l with
  | nil => simp [pyIndexOf]
  | cons h t ih =>
    by_cases hx : h = x
    · simp [pyIndexOf, hx]
    · simp [pyIndexOf, hx, ih, Ne.symm hx]

theorem pyIndexOf_first_match (x : String) :
    ∀ (l : List String) (i : Nat), pyIndexOf x l = some i →
      l.get? i = some x ∧ ∀ j, j < i → l.get? j ≠ some x := by
  intro l
  induction l with
  | nil => intro i h; simp [pyIndexOf] at h
  | cons hd t ih =>
    intro i h
    by_cases hx : hd = x
    · simp only [pyIndexOf, if_pos hx] at h
      cases h
      subst hx
      exact ⟨rfl, by omega⟩
    · simp only [pyIndexOf, if_neg hx] at h
      rcases hi : pyIndexOf x t with _ | i'
      · rw [hi] at h
        simp at h
      · rw [hi] at h
        simp at h
        subst h
        obtain ⟨hget, hfirst⟩ := ih i' hi
        refine ⟨hget, ?_⟩
        intro j hj
        cases j with
        | zero => simpa using fun hh => hx hh
        | succ j' =>
          simp only [List.get?_cons_succ]
          exact hfirst j' (by omega)

theorem idxGo_eq_neg_one_iff (lower : List String) :
    ∀ names : List String, idxGo lower names = -1 ↔ ∀ n ∈ names, pyLower n ∉ lower := by
  intro names
  induction names with
  | nil => simp [idxGo]
  | cons n rest ih =>
    simp only [idxGo]
    rcases hio : pyIndexOf (pyLower n) lower with _ | i
    · have hnm : pyLower n ∉ lower := (pyIndexOf_eq_none_iff _ _).mp hio
      simp [hio, ih, hnm]
    · simp only [hio]
      constructor
      · intro h
        exact absurd h (by omega)
      · intro hall
        exfalso
        have hmem : pyLower n ∈ lower := by
          by_contra hnm
          rw [← pyIndexOf_eq_none_iff] at hnm
          rw [hnm] at hio
          cases hio
        exact hall n (by simp) hmem

/-- Counterexample to claim C4: in a boxscore whose header list lacks
`PLAYER_NAME`, the resolver returns `-1`, but the row's player-name
access reads the row's *last* column (Python negative indexing) rather
than defaulting to the empty string: the game below credits its 3
points to PG through a roster hit on the name found in the last cell,
whereas the claimed defaulting semantics (empty name, roster miss,
heuristic on label `"F"` with `reb = 0`, `blk = 0`) would credit SF. -/
theorem c4_counterexample :
    idx ["TEAM_ID", "TEAM_ABBREVIATION", "START_POSITION", "PTS", "REB",
      "AST", "FG3M", "STL", "BLK"] ["PLAYER_NAME"] = -1 ∧
    processGame 5 "pts" (fun _ => [("lebron james", "PG")])
      (some ⟨[⟨"PlayerStats",
        ["TEAM_ID", "TEAM_ABBREVIATION", "START_POSITION", "PTS", "REB",
         "AST", "FG3M", "STL", "BLK"],
        [[.num 7, .str "XYZ", .str "F", .num 3, .num 0, .num 0, .num 0,
          .num 0, .str "LeBron James"]]⟩]⟩) =
      .ok (some [("PG", 3), ("SG", 0), ("SF", 0), ("PF", 0), ("C", 0)]) ∧
    ([("lebron james", "PG")] : List (String × String)).lookup (norm_name "") = none ∧
    heuristicBucket "F" 0 0 0 0 = "SF" ∧
    ("PG" : String) ≠ "SF" := by
  refine ⟨by decide, by decide, by decide, by decide, by decide⟩

/-- Claim C4 as amended: `idx` performs the case-insensitive search
through the candidate names in order — it returns `-1` exactly when no
candidate matches any header, and otherwise the first index of the
first matching candidate — but a row access through a resolved index
of `-1` reads the row's last element under Python negative indexing
instead of being treated as unusable; the zero/empty defaults apply
only when the accessed cell itself is falsy. -/
theorem c4_idx_and_negative_indexing :
    (∀ (headers names : List String), idx headers names = -1 ↔
      ∀ n ∈ names, ∀ h ∈ headers, pyLower h ≠ pyLower n) ∧
    (∀ (headers : List String) (n : String) (i : Nat),
      pyIndexOf (pyLower n) (headers.map pyLower) = some i →
      idx headers [n] = i ∧ (headers.map pyLower).get? i = some (pyLower n) ∧
      ∀ j, j < i → (headers.map pyLower).get? j ≠ some (pyLower n)) ∧
    (∀ (r : List Cell) (h : r ≠ []), pyGet r (-1) = .ok (r.getLast h)) ∧
    (∀ c : Cell, c.truthy = false → strOrEmpty c = "" ∧ floatOr0 c = .ok 0) := by
  refine ⟨?_, ?_, ?_, ?_⟩
  · intro headers names
    rw [idx, idxGo_eq_neg_one_iff]
    constructor
    · intro hall n hn h hh heq
      exact hall n hn (heq ▸ List.mem_map_of_mem (fun x => pyLower x) hh)
    · intro hall n hn hmem
      obtain ⟨h, hh, heq⟩ := List.mem_map.mp hmem
      exact hall n hn h hh heq
  · intro headers n i hio
    obtain ⟨hget, hfirst⟩ := pyIndexOf_first_match (pyLower n) (headers.map pyLower) i hio
    refine ⟨?_, hget, hfirst⟩
    simp [idx, idxGo, hio]
  · intro r h
    unfold pyGet
    have hlen : 0 < r.length := List.length_pos.mpr h
    have hneg : (-1 : Int) < 0 := by decide
    simp only [if_pos hneg]
    have h0 : (0 : Int) ≤ -1 + r.length := by omega
    simp only [if_pos h0]
    have htn : ((-1 : Int) + r.length).toNat = r.length - 1 := by omega
    rw [htn]
    have hget : r.get? (r.length - 1) = some (r.getLast h) := by
      rw [List.getLast_eq_get]
      exact List.get?_eq_get (by omega)
    rw [hget]
  · intro c hc
    exact ⟨by simp [strOrEmpty, hc], by simp [floatOr0, hc]⟩

/-- Witness for C4 (amended): `PTS` resolves to index 3 of a concrete
header list, the first match being at that position, and `r[-1]` on a
two-cell row reads its last cell. -/
theorem c4_witness :
    idx ["TEAM_ID", "PTS", "pts"] ["PTS"] = 1 ∧
    pyGet [Cell.num 7, Cell.str "x"] (-1) = .ok (Cell.str "x") ∧
    strOrEmpty Cell.null = "" := by
  have h := c4_idx_and_negative_indexing
  refine ⟨(h.2.1 ["TEAM_ID", "PTS", "pts"] "PTS" 1 (by decide)).1, ?_, ?_⟩
  · have h2 := h.2.2.1 [Cell.num 7, Cell.str "x"] (by decide)
    rw [h2]
    decide
  · exact (h.2.2.2 Cell.null (by decide)).1

/-! ## Scope of the exception handler (C3) -/

/-- Counterexample to claim C3: the `try`/`except` protects only the
`nba_fetch` call, so an exception raised while parsing a row — here
`int(None)` on the team-id cell of a fetched boxscore — propagates out
of `compute_for_season` instead of skipping the game. -/
theorem c3_counterexample :
    compute_for_season [some ⟨[⟨"PlayerStats", ["TEAM_ID"], [[Cell.null]]⟩]⟩]
      (fun _ => []) 5 "pts" 20 2025 = .error () := by decide

theorem seasonFold_all_none {team : Int} {metric : String}
    {d : String → List (String × String)} :
    ∀ (l : List (Option Boxscore)) (acc : Buckets × Nat), (∀ fr ∈ l, fr = none) →
      l.foldlM (seasonStep team metric d) acc = .ok acc := by
  intro l
  induction l with
  | nil => intro acc _; rfl
  | cons x xs ih =>
    intro acc hall
    rw [List.foldlM_cons]
    have hx : x = none := hall x (by simp)
    subst hx
    have hstep : seasonStep team metric d acc none = .ok acc := rfl
    rw [hstep]
    simp only [bind, Except.bind]
    exact ih acc (fun fr hf => hall fr (by simp [hf]))

/-- Claim C3 as amended: an exception raised while *fetching* a game's
boxscore is caught at the game boundary — the game contributes nothing
and does not increment the processed count, and a season whose fetches
all fail still returns a normal zero result.  Exceptions raised while
*parsing* a fetched boxscore, such as converting a row's team-id field,
are outside the handler and propagate (see the counterexample). -/
theorem c3_fetch_failures_absorbed (team : Int) (metric : String)
    (d : String → List (String × String)) :
    processGame team metric d none = .ok none ∧
    (∀ acc, seasonStep team metric d acc none = .ok acc) ∧
    (∀ (games : List (Option Boxscore)) (g y : Int), (∀ fr ∈ games, fr = none) →
      compute_for_season games d team metric g y =
        .ok ⟨season_label_from_year y, 0, bucketsInit,
          BUCKETS_KEYS.map (fun k => (k, (0 : ℚ)))⟩) := by
  refine ⟨rfl, fun acc => rfl, ?_⟩
  intro games g y hall
  simp only [compute_for_season]
  rw [seasonFold_all_none (games.take (clampGames g)) (bucketsInit, 0)
    (fun fr hf => hall fr (List.take_subset _ _ hf))]
  rfl

/-- Witness for C3 (amended): a two-game season whose fetches both
fail returns the zero result for the requested season. -/
theorem c3_witness :
    compute_for_season [none, none] (fun _ => []) 5 "pts" 20 2025 =
      .ok ⟨"2025-26", 0, bucketsInit, BUCKETS_KEYS.map (fun k => (k, (0 : ℚ)))⟩ :=
  (c3_fetch_failures_absorbed 5 "pts" (fun _ => [])).2.2 [none, none] 20 2025
    (by simp)

/-! ## Orchestration and the season retry (C5) -/

/-- Counterexample to claim C5: the run does not end as a success
result in every case — an exception escaping `compute_for_season`
(here a row-parse failure, see C3) propagates out of the orchestration. -/
theorem c5_counterexample :
    mainRun (fun _ => [some ⟨[⟨"PlayerStats", ["TEAM_ID"], [[Cell.null]]⟩]⟩])
      (fun _ => []) 5 "pts" 20 2025 = .error () := by decide

/-- Claim C5 as amended: when `compute_for_season` for the requested
year returns normally, the orchestration behaves exactly as claimed —
a nonzero processed count is returned as-is under the requested season
label with no influence from any other season; a zero count triggers
the single retry with `startYear - 1`, whose label, count, totals and
averages are adopted iff the retry processed a game, the original
zero result being kept otherwise; the run is a success result whenever
the invoked computations return normally, but an escaping exception
propagates (see the counterexample). -/
theorem c5_retry_orchestration (gamesOf : Int → List (Option Boxscore))
    (d : String → List (String × String)) (team : Int) (metric : String)
    (g y : Int) (r1 : SeasonResult)
    (h1 : compute_for_season (gamesOf y) d team metric g y = .ok r1) :
    (r1.processed ≠ 0 → mainRun gamesOf d team metric g y =
      .ok ⟨true, season_label_from_year y, r1.processed, r1.perGame, r1.totals⟩) ∧
    (r1.processed = 0 → ∀ r2,
      compute_for_season (gamesOf (y - 1)) d team metric g (y - 1) = .ok r2 →
      mainRun gamesOf d team metric g y =
        .ok (if 0 < r2.processed then
          ⟨true, r2.label, r2.processed, r2.perGame, r2.totals⟩
        else ⟨true, season_label_from_year y, r1.processed, r1.perGame, r1.totals⟩)) := by
  constructor
  · intro hne
    unfold mainRun
    rw [h1]
    simp only [if_neg hne]
  · intro h0 r2 h2
    unfold mainRun
    rw [h1]
    simp only [if_pos h0]
    rw [h2]
    by_cases hp : 0 < r2.processed
    · simp [hp]
    · simp [hp]

/-- Witness for C5 (amended): with empty game lists both attempts
process zero games, and the run ends as the zero-valued success result
labeled with the requested season. -/
theorem c5_witness :
    mainRun (fun _ => []) (fun _ => []) 5 "pts" 20 2025 =
      .ok ⟨true, "2025-26", 0,
        [("PG", 0), ("SG", 0), ("SF", 0), ("PF", 0), ("C", 0)],
        [("PG", 0), ("SG", 0), ("SF", 0), ("PF", 0), ("C", 0)]⟩ := by
  have h := (c5_retry_orchestration (fun _ => []) (fun _ => []) 5 "pts" 20 2025
    ⟨"2025-26", 0, [("PG", 0), ("SG", 0), ("SF", 0), ("PF", 0), ("C", 0)],
     [("PG", 0), ("SG", 0), ("SF", 0), ("PF", 0), ("C", 0)]⟩ (by decide)).2 rfl
    ⟨"2024-25", 0, [("PG", 0), ("SG", 0), ("SF", 0), ("PF", 0), ("C", 0)],
     [("PG", 0), ("SG", 0), ("SF", 0), ("PF", 0), ("C", 0)]⟩ (by decide)
  simpa using h

/-- Witness for C8: a three-game list under `--games 0` processes at
most one game (here: zero, as the fetches failed), and the clamp facts
hold at `0` and `500`. -/
theorem c8_witness :
    clampGames 0 = 1 ∧ clampGames 500 = 50 ∧
    (∀ r, compute_for_season [none, none, none] (fun _ => []) 5 "pts" 0 2025 = .ok r →
      r.processed ≤ 50) := by
  refine ⟨(c8_clamp_games 0).2.2.1, (c8_clamp_games 0).2.2.2.1, ?_⟩
  intro r h
  exact (c8_clamp_games 0).2.2.2.2.2 [none, none, none] (fun _ => []) 5 "pts" 2025 r h

end DvP
